import Mathlib

/-!
Shallow embedding of the N-Triples lexer of the rs-rdf repository
(src/reader/lexer/n_triples_lexer.rs and src/reader/lexer/token.rs).

The character source (InputReader), its helper predicate and the shared
primitive consume_next_char are declared outside the visible sources; they
are modelled from the specification of the Character Source boundary,
calibrated against the test module inside n_triples_lexer.rs.
-/

namespace RsRdf

/-- The token vocabulary, translated from src/reader/lexer/token.rs. -/
inductive Token where
  | Comment : String → Token
  | Literal : String → Token
  | LiteralWithUrlDatatype : String → String → Token
  | LiteralWithQNameDatatype : String → String → Token
  | LiteralWithLanguageSpecification : String → String → Token
  | Uri : String → Token
  | BlankNode : String → Token
  | TripleDelimiter : Token
  | PrefixDirective : String → String → Token
  | BaseDirective : String → Token
  | QName : String → String → Token
  | Prefix : String → Token
  | PredicateListDelimiter : Token
  | ObjectListDelimiter : Token
  | EndOfInput : Token
deriving DecidableEq, Repr

/-- Modelled from the spec: the error classification used by the Character
Source and the lexer rules. End-of-input carries the characters read so far;
every other failure relevant to the lexer is an invalid-reader-input error. -/
inductive ErrorType where
  | EndOfInput : String → ErrorType
  | InvalidReaderInput : ErrorType
deriving DecidableEq, Repr

/-- Modelled from the spec: an error value carrying its classification and a
human-readable message, as produced by Error::new in the sources. -/
structure Error where
  error_type : ErrorType
  message : String
deriving DecidableEq, Repr

/-- The Result alias used throughout the sources. -/
abbrev Result (α : Type) := Except Error α

/-- Modelled from the spec: the Character Source is a pure forward-only
cursor over the input characters; we represent its state as the list of
characters not yet consumed. -/
abbrev InputReader := List Char

/-- Modelled from the spec: the whitespace predicate used when discarding
leading whitespace (space, tab, line feed, carriage return). -/
def rsIsWhitespace (c : Char) : Bool :=
  c = ' ' || c = '\t' || c = '\n' || c = '\r'

/-- Modelled from the spec: InputReaderHelper::node_delimiter — a character
is a node delimiter if it is whitespace or one of period, angle-open, quote,
underscore (any character that can legally start the next token). -/
def node_delimiter (c : Char) : Bool :=
  rsIsWhitespace c || c = '.' || c = '<' || c = '"' || c = '_'

/-- Modelled from the spec: peek the next character without consuming it;
reports none when the stream is exhausted. -/
def peek_next_char (input : InputReader) : Option Char :=
  input.head?

/-- Modelled from the spec: discard leading whitespace from the stream. -/
def discard_leading_spaces (input : InputReader) : InputReader :=
  input.dropWhile rsIsWhitespace

/-- Modelled from the spec: peek the next character after discarding leading
whitespace; the discarded whitespace stays consumed in the returned state. -/
def peek_next_char_discard_leading_spaces (input : InputReader) :
    Option Char × InputReader :=
  let rest := discard_leading_spaces input
  (rest.head?, rest)

/-- Modelled from the spec: consume and return the next character. -/
def get_next_char (input : InputReader) : Option Char × InputReader :=
  (input.head?, input.tail)

/-- Modelled from the spec: the shared lexing primitive that consumes exactly
one character and discards it (TokensFromRdf::consume_next_char). -/
def consume_next_char (input : InputReader) : InputReader :=
  input.tail

/-- Modelled from the spec: read characters until the predicate holds on the
next character, leaving that delimiter character unconsumed. If the stream is
exhausted before the predicate holds, fail with an end-of-input error that
carries the characters read so far (the whole remainder is then consumed). -/
def get_until (pred : Char → Bool) (input : InputReader) :
    Result String × InputReader :=
  let chars := input.takeWhile (fun c => !(pred c))
  match input.dropWhile (fun c => !(pred c)) with
  | [] => (.error ⟨.EndOfInput (String.mk chars), "End of input reached."⟩, [])
  | rest => (.ok (String.mk chars), rest)

/-- Modelled from the spec: as get_until, after first discarding leading
whitespace (calibrated against the comment test in the sources, which expects
the space after the hash sign to be absent from the comment payload). -/
def get_until_discard_leading_spaces (pred : Char → Bool)
    (input : InputReader) : Result String × InputReader :=
  get_until pred (discard_leading_spaces input)

/-- TokensFromNTriples::get_comment, translated from the source: consume the
hash sign, read until a line ending; on success consume the delimiter and
return the comment token, on end-of-input return the comment built from the
characters read so far. -/
def get_comment (input : InputReader) : Result Token × InputReader :=
  let input1 := consume_next_char input
  match get_until_discard_leading_spaces (fun c => c = '\n' || c = '\r') input1 with
  | (.ok chars, rest) => (.ok (Token.Comment chars), consume_next_char rest)
  | (.error err, rest) =>
    match err.error_type with
    | .EndOfInput chars => (.ok (Token.Comment chars), rest)
    | _ => (.error ⟨.InvalidReaderInput, "Invalid input while parsing comment."⟩, rest)

/-- TokensFromNTriples::get_language_specification, translated from the
source: read until a node delimiter; end-of-input yields the characters read
so far. -/
def get_language_specification (input : InputReader) :
    Result String × InputReader :=
  match get_until node_delimiter input with
  | (.ok chars, rest) => (.ok chars, rest)
  | (.error err, rest) =>
    match err.error_type with
    | .EndOfInput chars => (.ok chars, rest)
    | _ => (.error ⟨.InvalidReaderInput, "Invalid input for while parsing language specification."⟩, rest)

/-- TokensFromNTriples::get_uri, translated from the source: consume the
opening angle bracket, read until the closing one (propagating any failure),
consume it and return the URI token. -/
def get_uri (input : InputReader) : Result Token × InputReader :=
  let input1 := consume_next_char input
  match get_until (fun c => c = '>') input1 with
  | (.error err, rest) => (.error err, rest)
  | (.ok chars, rest) => (.ok (Token.Uri chars), consume_next_char rest)

/-- TokensFromNTriples::get_literal, translated from the source. The match on
the peeked character mirrors the Rust match arms: at-sign, caret, and the
catch-all arm (which also covers end-of-input) that speculatively consumes
one more character before yielding a plain literal. -/
def get_literal (input : InputReader) : Result Token × InputReader :=
  let input1 := consume_next_char input
  match get_until (fun c => c = '"') input1 with
  | (.error err, rest) => (.error err, rest)
  | (.ok literal, rest) =>
    let rest1 := consume_next_char rest
    match peek_next_char rest1 with
    | some c =>
      if c = '@' then
        let rest2 := consume_next_char rest1
        match get_language_specification rest2 with
        | (.ok language, rest3) =>
          (.ok (Token.LiteralWithLanguageSpecification literal language), rest3)
        | (.error err, rest3) => (.error err, rest3)
      else if c = '^' then
        let rest2 := consume_next_char (consume_next_char rest1)
        match peek_next_char rest2 with
        | some c2 =>
          if c2 = '<' then
            match get_uri rest2 with
            | (.ok (Token.Uri datatype_uri), rest3) =>
              (.ok (Token.LiteralWithUrlDatatype literal datatype_uri), rest3)
            | (.ok _, rest3) =>
              (.error ⟨.InvalidReaderInput, "Invalid data type URI for literal."⟩, rest3)
            | (.error err, rest3) => (.error err, rest3)
          else
            (.error ⟨.InvalidReaderInput, "Invalid data type token: " ++ c2.toString⟩, rest2)
        | none => (.error ⟨.InvalidReaderInput, "Invalid input."⟩, rest2)
      else
        (.ok (Token.Literal literal), consume_next_char rest1)
    | none => (.ok (Token.Literal literal), consume_next_char rest1)

/-- TokensFromNTriples::get_blank_node, translated from the source: consume
the underscore, require the next consumed character to be a colon, then read
until a node delimiter; end-of-input yields the blank node built from the
characters read so far. -/
def get_blank_node (input : InputReader) : Result Token × InputReader :=
  let input1 := consume_next_char input
  match get_next_char input1 with
  | (some c, rest) =>
    if c = ':' then
      match get_until node_delimiter rest with
      | (.ok chars, rest2) => (.ok (Token.BlankNode chars), rest2)
      | (.error err, rest2) =>
        match err.error_type with
        | .EndOfInput chars => (.ok (Token.BlankNode chars), rest2)
        | _ => (.error ⟨.InvalidReaderInput, "Invalid input for lexer while parsing blank node."⟩, rest2)
    else
      (.error ⟨.InvalidReaderInput, "Invalid character while parsing blank node: " ++ c.toString⟩, rest)
  | (none, rest) =>
    (.error ⟨.InvalidReaderInput, "Error while parsing blank node."⟩, rest)

/-- NTriplesLexer: the character source plus the optional one-token
lookahead cache, translated from the source. -/
structure NTriplesLexer where
  input_reader : InputReader
  peeked_token : Option Token
deriving DecidableEq, Repr

/-- NTriplesLexer::new — fresh lexer with an empty lookahead cache. -/
def NTriplesLexer.new (input : List Char) : NTriplesLexer :=
  ⟨input, none⟩

/-- RdfLexer::get_next_token for NTriplesLexer, translated from the source:
return the cached token if present (clearing the cache); otherwise peek the
next significant character, discarding leading whitespace, and dispatch. The
if-chain mirrors the Rust match arms on the peeked character. -/
def get_next_token (l : NTriplesLexer) : Result Token × NTriplesLexer :=
  match l.peeked_token with
  | some token => (.ok token, { l with peeked_token := none })
  | none =>
    match peek_next_char_discard_leading_spaces l.input_reader with
    | (some c, input) =>
      if c = '#' then
        let p := get_comment input
        (p.1, ⟨p.2, none⟩)
      else if c = '"' then
        let p := get_literal input
        (p.1, ⟨p.2, none⟩)
      else if c = '<' then
        let p := get_uri input
        (p.1, ⟨p.2, none⟩)
      else if c = '_' then
        let p := get_blank_node input
        (p.1, ⟨p.2, none⟩)
      else if c = '.' then
        (.ok Token.TripleDelimiter, ⟨consume_next_char input, none⟩)
      else
        (.error ⟨.InvalidReaderInput, "Invalid input: " ++ c.toString⟩, ⟨input, none⟩)
    | (none, input) => (.ok Token.EndOfInput, ⟨input, none⟩)

/-- RdfLexer::peek_next_token for NTriplesLexer, translated from the source:
return the cached token if present; otherwise obtain the next token
(propagating failure) and cache it. -/
def peek_next_token (l : NTriplesLexer) : Result Token × NTriplesLexer :=
  match l.peeked_token with
  | some token => (.ok token, l)
  | none =>
    match get_next_token l with
    | (.ok next, l2) => (.ok next, { l2 with peeked_token := some next })
    | (.error err, l2) => (.error err, l2)

/-- Run get_next_token the given number of times, collecting the results. -/
def run_tokens : Nat → NTriplesLexer → List (Result Token)
  | 0, _ => []
  | Nat.succ n, l =>
    let p := get_next_token l
    p.1 :: run_tokens n p.2

/-- Decidable equality of token results, for evaluating the model at
concrete inputs. -/
instance decEqResultToken : DecidableEq (Result Token) := fun a b =>
  match a, b with
  | .ok x, .ok y =>
    if h : x = y then .isTrue (congrArg Except.ok h)
    else .isFalse (fun hh => h (Except.ok.inj hh))
  | .error x, .error y =>
    if h : x = y then .isTrue (congrArg Except.error h)
    else .isFalse (fun hh => h (Except.error.inj hh))
  | .ok _, .error _ => .isFalse (fun hh => Except.noConfusion hh)
  | .error _, .ok _ => .isFalse (fun hh => Except.noConfusion hh)

/-- An input made only of hash-introduced comment lines: a first comment body
and then further bodies, each preceded by its line-ending separator. -/
def comment_block : List Char → List (Char × List Char) → List Char
  | first, [] => '#' :: first
  | first, (s, b) :: rest => '#' :: first ++ s :: comment_block b rest

/-- Characters surviving dropWhile were in the original list. -/
theorem mem_of_mem_dropWhile {p : Char → Bool} {l : List Char} {c : Char}
    (h : c ∈ l.dropWhile p) : c ∈ l := by
  induction l with
  | nil => simp at h
  | cons a l ih =>
    by_cases ha : p a
    · rw [List.dropWhile_cons_of_pos ha] at h
      exact List.mem_cons_of_mem _ (ih h)
    · rwa [List.dropWhile_cons_of_neg ha] at h

/-- If the predicate is false on every element, takeWhile of its negation
keeps the whole list. -/
theorem takeWhile_neg_all {p : Char → Bool} {l : List Char}
    (h : ∀ c ∈ l, p c = false) : l.takeWhile (fun c => !(p c)) = l := by
  induction l with
  | nil => rfl
  | cons a l ih =>
    have ha : p a = false := h a (List.mem_cons_self a l)
    have ih2 := ih (fun c hc => h c (List.mem_cons_of_mem a hc))
    simp [List.takeWhile_cons, ha, ih2]

/-- If the predicate is false on every element, dropWhile of its negation
drops the whole list. -/
theorem dropWhile_neg_all {p : Char → Bool} {l : List Char}
    (h : ∀ c ∈ l, p c = false) : l.dropWhile (fun c => !(p c)) = [] := by
  induction l with
  | nil => rfl
  | cons a l ih =>
    have ha : p a = false := h a (List.mem_cons_self a l)
    have ih2 := ih (fun c hc => h c (List.mem_cons_of_mem a hc))
    simp [List.dropWhile_cons, ha, ih2]

/-- get_until on a body free of delimiters followed by a delimiter returns
the body and leaves the delimiter unconsumed. -/
theorem get_until_of_split (p : Char → Bool) (body : List Char) (s : Char)
    (tail : List Char) (hb : ∀ c ∈ body, p c = false) (hs : p s = true) :
    get_until p (body ++ s :: tail) = (.ok (String.mk body), s :: tail) := by
  have hall : ∀ c ∈ body, (fun c => !(p c)) c = true := by
    intro c hc
    simp [hb c hc]
  have ht : (body ++ s :: tail).takeWhile (fun c => !(p c)) = body := by
    rw [List.takeWhile_append_of_pos hall]
    simp [List.takeWhile_cons, hs]
  have hd : (body ++ s :: tail).dropWhile (fun c => !(p c)) = s :: tail := by
    rw [List.dropWhile_append_of_pos hall]
    simp [List.dropWhile_cons, hs]
  simp [get_until, ht, hd]

/-- get_until on a body free of delimiters that runs out of input fails with
an end-of-input error carrying the whole body. -/
theorem get_until_of_eof {p : Char → Bool} {body : List Char}
    (hb : ∀ c ∈ body, p c = false) :
    get_until p body =
      (.error ⟨.EndOfInput (String.mk body), "End of input reached."⟩, []) := by
  simp [get_until, takeWhile_neg_all hb, dropWhile_neg_all hb]

/-- get_uri succeeds when the closing angle bracket is present. -/
theorem get_uri_ok (body tail : List Char) (hb : '>' ∉ body) :
    get_uri ('<' :: body ++ '>' :: tail) = (.ok (Token.Uri (String.mk body)), tail) := by
  have hb2 : ∀ c ∈ body, decide (c = '>') = false := by
    intro c hc
    exact decide_eq_false (fun h => hb (h ▸ hc))
  have hs : decide (('>' : Char) = '>') = true := by decide
  simp [get_uri, consume_next_char, get_until_of_split (fun c => decide (c = '>')) body '>' tail hb2 hs]

/-- get_uri propagates the end-of-input failure when no closing angle
bracket exists. -/
theorem get_uri_eof (body : List Char) (hb : '>' ∉ body) :
    get_uri ('<' :: body) =
      (.error ⟨.EndOfInput (String.mk body), "End of input reached."⟩, []) := by
  have hb2 : ∀ c ∈ body, decide (c = '>') = false := by
    intro c hc
    exact decide_eq_false (fun h => hb (h ▸ hc))
  simp [get_uri, consume_next_char, get_until_of_eof hb2]

/-- C4: the URI rule returns Uri with exactly the characters between the
angle brackets when a closing bracket exists, and when the input ends before
a closing bracket it fails, propagating the end-of-input error (carrying the
partial characters) rather than producing a token. -/
theorem uri_rule_spec (body tail : List Char) (hb : '>' ∉ body) :
    get_uri ('<' :: body ++ '>' :: tail) = (.ok (Token.Uri (String.mk body)), tail) ∧
    ∃ e : Error, get_uri ('<' :: body) = (.error e, []) ∧
      e.error_type = ErrorType.EndOfInput (String.mk body) := by
  refine ⟨get_uri_ok body tail hb, ⟨_, get_uri_eof body hb, rfl⟩⟩

/-- Witness for uri_rule_spec at a concrete input. -/
theorem uri_rule_spec_witness :
    (get_uri ['<', 'a', '>'] = (.ok (Token.Uri "a"), []) ∧
     ∃ e : Error, get_uri ['<', 'a'] = (.error e, []) ∧
       e.error_type = ErrorType.EndOfInput "a") :=
  uri_rule_spec ['a'] [] (by decide)

/-- C5: the blank node rule fails when the character after the underscore is
not a colon (also when the input ends right there); otherwise it reads the
identifier up to the next node delimiter, and when the input ends while
reading the identifier it returns the blank node built from the characters
read so far instead of failing. -/
theorem blank_node_rule_spec (idchars tail : List Char) (c d : Char)
    (hc : c ≠ ':') (hid : ∀ ch ∈ idchars, node_delimiter ch = false)
    (hd : node_delimiter d = true) :
    (∃ e : Error, get_blank_node ('_' :: c :: tail) = (.error e, tail)) ∧
    (∃ e : Error, get_blank_node ['_'] = (.error e, [])) ∧
    get_blank_node ('_' :: ':' :: idchars ++ d :: tail) =
      (.ok (Token.BlankNode (String.mk idchars)), d :: tail) ∧
    get_blank_node ('_' :: ':' :: idchars) =
      (.ok (Token.BlankNode (String.mk idchars)), []) := by
  refine ⟨⟨⟨.InvalidReaderInput, "Invalid character while parsing blank node: " ++ c.toString⟩, ?_⟩,
    ⟨⟨.InvalidReaderInput, "Error while parsing blank node."⟩, rfl⟩, ?_, ?_⟩
  · simp [get_blank_node, consume_next_char, get_next_char, hc]
  · simp [get_blank_node, consume_next_char, get_next_char,
      get_until_of_split node_delimiter idchars d tail hid hd]
  · simp [get_blank_node, consume_next_char, get_next_char, get_until_of_eof hid]

/-- Witness for blank_node_rule_spec at a concrete input. -/
theorem blank_node_rule_spec_witness :
    (∃ e : Error, get_blank_node ['_', 'x'] = (.error e, [])) ∧
    (∃ e : Error, get_blank_node ['_'] = (.error e, [])) ∧
    get_blank_node ['_', ':', 'a', ' '] = (.ok (Token.BlankNode "a"), [' ']) ∧
    get_blank_node ['_', ':', 'a'] = (.ok (Token.BlankNode "a"), []) :=
  blank_node_rule_spec ['a'] [] 'x' ' ' (by decide) (by decide) (by decide)

/-- A list without a quote character falsifies the quote predicate. -/
theorem quote_pred_false {text : List Char} (ht : '"' ∉ text) :
    ∀ c ∈ text, decide (c = '"') = false :=
  fun c hc => decide_eq_false (fun h => ht (h ▸ hc))

/-- Dispatch: a fresh lexer whose input starts with a quote hands the input
to the literal rule and stores its remaining input with an empty cache. -/
theorem get_next_token_new_quote (rest : List Char) :
    get_next_token (NTriplesLexer.new ('"' :: rest)) =
      ((get_literal ('"' :: rest)).1, ⟨(get_literal ('"' :: rest)).2, none⟩) := rfl

/-- The literal rule on a quoted body followed by an at-sign language tag
bounded by a node delimiter. -/
theorem get_literal_lang_ok (text tag tail : List Char) (d : Char)
    (ht : '"' ∉ text) (htag : ∀ ch ∈ tag, node_delimiter ch = false)
    (hd : node_delimiter d = true) :
    get_literal ('"' :: (text ++ '"' :: '@' :: (tag ++ d :: tail))) =
      (.ok (Token.LiteralWithLanguageSpecification (String.mk text) (String.mk tag)), d :: tail) := by
  have h1 := get_until_of_split (fun c => decide (c = '"')) text '"'
    ('@' :: (tag ++ d :: tail)) (quote_pred_false ht) (by decide)
  have h2 := get_until_of_split node_delimiter tag d tail htag hd
  simp [get_literal, consume_next_char, peek_next_char, h1,
    get_language_specification, h2]

/-- The literal rule on a quoted body followed by an at-sign language tag
that runs to end of input. -/
theorem get_literal_lang_eof (text tag : List Char)
    (ht : '"' ∉ text) (htag : ∀ ch ∈ tag, node_delimiter ch = false) :
    get_literal ('"' :: (text ++ '"' :: '@' :: tag)) =
      (.ok (Token.LiteralWithLanguageSpecification (String.mk text) (String.mk tag)), []) := by
  have h1 := get_until_of_split (fun c => decide (c = '"')) text '"'
    ('@' :: tag) (quote_pred_false ht) (by decide)
  have h2 := get_until_of_eof htag
  simp [get_literal, consume_next_char, peek_next_char, h1,
    get_language_specification, h2]

/-- The literal rule on a quoted body followed by a caret-caret datatype URI
with its closing bracket. -/
theorem get_literal_datatype_ok (text uri tail : List Char)
    (ht : '"' ∉ text) (hu : '>' ∉ uri) :
    get_literal ('"' :: (text ++ '"' :: '^' :: '^' :: '<' :: (uri ++ '>' :: tail))) =
      (.ok (Token.LiteralWithUrlDatatype (String.mk text) (String.mk uri)), tail) := by
  have h1 := get_until_of_split (fun c => decide (c = '"')) text '"'
    ('^' :: '^' :: '<' :: (uri ++ '>' :: tail)) (quote_pred_false ht) (by decide)
  have h3 := get_uri_ok uri tail hu
  simp only [List.cons_append] at h3
  simp [get_literal, consume_next_char, peek_next_char, h1, h3]

/-- The literal rule fails when the caret-caret annotation is followed by a
character other than an opening angle bracket. -/
theorem get_literal_datatype_bad (text tail : List Char) (c : Char)
    (ht : '"' ∉ text) (hc : c ≠ '<') :
    get_literal ('"' :: (text ++ '"' :: '^' :: '^' :: c :: tail)) =
      (.error ⟨.InvalidReaderInput, "Invalid data type token: " ++ c.toString⟩, c :: tail) := by
  have h1 := get_until_of_split (fun ch => decide (ch = '"')) text '"'
    ('^' :: '^' :: c :: tail) (quote_pred_false ht) (by decide)
  simp [get_literal, consume_next_char, peek_next_char, h1, hc]

/-- The literal rule fails when the input ends right after the caret-caret
annotation. -/
theorem get_literal_datatype_eof (text : List Char) (ht : '"' ∉ text) :
    get_literal ('"' :: (text ++ ['"', '^', '^'])) =
      (.error ⟨.InvalidReaderInput, "Invalid input."⟩, []) := by
  have h1 := get_until_of_split (fun c => decide (c = '"')) text '"'
    ['^', '^'] (quote_pred_false ht) (by decide)
  simp [get_literal, consume_next_char, peek_next_char, h1]

/-- C6: on a quoted literal followed by caret-caret and a bracketed URI,
get_next_token yields LiteralWithUrlDatatype; followed by caret-caret and
any character other than an opening angle bracket, or end of input, it
fails. -/
theorem literal_datatype_token_spec (text uri tail : List Char) (c : Char)
    (ht : '"' ∉ text) (hu : '>' ∉ uri) (hc : c ≠ '<') :
    get_next_token (NTriplesLexer.new ('"' :: text ++ '"' :: '^' :: '^' :: '<' :: uri ++ '>' :: tail)) =
      (.ok (Token.LiteralWithUrlDatatype (String.mk text) (String.mk uri)), ⟨tail, none⟩) ∧
    (∃ e : Error, get_next_token (NTriplesLexer.new ('"' :: text ++ '"' :: '^' :: '^' :: c :: tail)) =
      (.error e, ⟨c :: tail, none⟩)) ∧
    (∃ e : Error, get_next_token (NTriplesLexer.new ('"' :: text ++ ['"', '^', '^'])) =
      (.error e, ⟨[], none⟩)) := by
  refine ⟨?_, ⟨⟨.InvalidReaderInput, "Invalid data type token: " ++ c.toString⟩, ?_⟩,
    ⟨⟨.InvalidReaderInput, "Invalid input."⟩, ?_⟩⟩
  · simp only [List.cons_append, List.append_assoc]
    rw [get_next_token_new_quote, get_literal_datatype_ok text uri tail ht hu]
  · simp only [List.cons_append, List.append_assoc]
    rw [get_next_token_new_quote, get_literal_datatype_bad text tail c ht hc]
  · simp only [List.cons_append, List.append_assoc]
    rw [get_next_token_new_quote, get_literal_datatype_eof text ht]

/-- Witness for literal_datatype_token_spec at a concrete input. -/
theorem literal_datatype_token_spec_witness :
    get_next_token (NTriplesLexer.new ['"', 'a', '"', '^', '^', '<', 'u', '>']) =
      (.ok (Token.LiteralWithUrlDatatype "a" "u"), ⟨[], none⟩) ∧
    (∃ e : Error, get_next_token (NTriplesLexer.new ['"', 'a', '"', '^', '^', 'x']) =
      (.error e, ⟨['x'], none⟩)) ∧
    (∃ e : Error, get_next_token (NTriplesLexer.new ['"', 'a', '"', '^', '^']) =
      (.error e, ⟨[], none⟩)) :=
  literal_datatype_token_spec ['a'] ['u'] [] 'x' (by decide) (by decide) (by decide)

/-- C7: on a quoted literal immediately followed by an at-sign language tag,
get_next_token yields LiteralWithLanguageSpecification with the text between
the quotes and the tag up to the next node delimiter, or up to end of
input. -/
theorem literal_language_token_spec (text tag tail : List Char) (d : Char)
    (ht : '"' ∉ text) (htag : ∀ ch ∈ tag, node_delimiter ch = false)
    (hd : node_delimiter d = true) :
    get_next_token (NTriplesLexer.new ('"' :: text ++ '"' :: '@' :: tag ++ d :: tail)) =
      (.ok (Token.LiteralWithLanguageSpecification (String.mk text) (String.mk tag)), ⟨d :: tail, none⟩) ∧
    get_next_token (NTriplesLexer.new ('"' :: text ++ '"' :: '@' :: tag)) =
      (.ok (Token.LiteralWithLanguageSpecification (String.mk text) (String.mk tag)), ⟨[], none⟩) := by
  constructor
  · simp only [List.cons_append, List.append_assoc]
    rw [get_next_token_new_quote, get_literal_lang_ok text tag tail d ht htag hd]
  · simp only [List.cons_append, List.append_assoc]
    rw [get_next_token_new_quote, get_literal_lang_eof text tag ht htag]

/-- Witness for literal_language_token_spec at a concrete input. -/
theorem literal_language_token_spec_witness :
    get_next_token (NTriplesLexer.new ['"', 'a', '"', '@', 'b', ' ']) =
      (.ok (Token.LiteralWithLanguageSpecification "a" "b"), ⟨[' '], none⟩) ∧
    get_next_token (NTriplesLexer.new ['"', 'a', '"', '@', 'b']) =
      (.ok (Token.LiteralWithLanguageSpecification "a" "b"), ⟨[], none⟩) :=
  literal_language_token_spec ['a'] ['b'] [] ' ' (by decide) (by decide) (by decide)

/-- A successful peek always leaves the returned token in the cache. -/
theorem peek_sets_cache (l l2 : NTriplesLexer) (t : Token)
    (h : peek_next_token l = (.ok t, l2)) : l2.peeked_token = some t := by
  unfold peek_next_token at h
  cases hp : l.peeked_token with
  | some tok =>
    rw [hp] at h
    simp only [Prod.mk.injEq, Except.ok.injEq] at h
    rw [← h.2, hp, h.1]
  | none =>
    rw [hp] at h
    cases hg : get_next_token l with
    | mk r l3 =>
      rw [hg] at h
      cases r with
      | ok next =>
        simp only [Prod.mk.injEq, Except.ok.injEq] at h
        rw [← h.2, h.1]
      | error err => simp at h

/-- If the cache is empty, a call to get_next_token leaves it empty. -/
theorem get_next_token_cache_of_none (l : NTriplesLexer)
    (h : l.peeked_token = none) : (get_next_token l).2.peeked_token = none := by
  unfold get_next_token
  rw [h]
  rcases hp : peek_next_char_discard_leading_spaces l.input_reader with ⟨oc, input⟩
  cases oc with
  | none => rfl
  | some c => simp only; split_ifs <;> rfl

/-- C2: peek_next_token is idempotent. After a successful peek returning a
token, peeking again returns the same token and the same state, and a
get_next_token then returns that same cached token while clearing the
lookahead cache and leaving the character stream untouched. -/
theorem peek_next_token_idempotent (l l2 : NTriplesLexer) (t : Token)
    (h : peek_next_token l = (.ok t, l2)) :
    peek_next_token l2 = (.ok t, l2) ∧
    get_next_token l2 = (.ok t, { l2 with peeked_token := none }) := by
  have hc := peek_sets_cache l l2 t h
  constructor
  · unfold peek_next_token
    rw [hc]
  · unfold get_next_token
    rw [hc]

/-- Witness for peek_next_token_idempotent at a concrete input. -/
theorem peek_next_token_idempotent_witness :
    peek_next_token ⟨[], some Token.TripleDelimiter⟩ =
      (.ok Token.TripleDelimiter, ⟨[], some Token.TripleDelimiter⟩) ∧
    get_next_token ⟨[], some Token.TripleDelimiter⟩ =
      (.ok Token.TripleDelimiter, ⟨[], none⟩) :=
  peek_next_token_idempotent (NTriplesLexer.new ['.'])
    ⟨[], some Token.TripleDelimiter⟩ Token.TripleDelimiter (by rfl)

/-- C8: with an empty cache and only whitespace (or nothing) left in the
stream, get_next_token returns the EndOfInput token as a success with the
stream exhausted, and calling get_next_token again on that exhausted state
keeps returning EndOfInput. -/
theorem end_of_input_persistent (l : NTriplesLexer)
    (h1 : l.peeked_token = none)
    (h2 : discard_leading_spaces l.input_reader = []) :
    get_next_token l = (.ok Token.EndOfInput, ⟨[], none⟩) ∧
    get_next_token ⟨[], none⟩ = (.ok Token.EndOfInput, ⟨[], none⟩) := by
  refine ⟨?_, rfl⟩
  unfold get_next_token
  rw [h1]
  simp [peek_next_char_discard_leading_spaces, h2]

/-- Witness for end_of_input_persistent at a concrete input. -/
theorem end_of_input_persistent_witness :
    get_next_token ⟨[' '], none⟩ = (.ok Token.EndOfInput, ⟨[], none⟩) ∧
    get_next_token ⟨[], none⟩ = (.ok Token.EndOfInput, ⟨[], none⟩) :=
  end_of_input_persistent ⟨[' '], none⟩ rfl (by decide)

/-- C9: a failing get_next_token or peek_next_token leaves the lookahead
cache exactly as it was before the call; no token is cached by a failing
call. -/
theorem error_preserves_cache (l l2 : NTriplesLexer) (e : Error) :
    (get_next_token l = (.error e, l2) → l2.peeked_token = l.peeked_token) ∧
    (peek_next_token l = (.error e, l2) → l2.peeked_token = l.peeked_token) := by
  constructor
  · intro h
    cases hp : l.peeked_token with
    | some tok =>
      unfold get_next_token at h
      rw [hp] at h
      simp at h
    | none =>
      have hnone := get_next_token_cache_of_none l hp
      rw [h] at hnone
      exact hnone
  · intro h
    cases hp : l.peeked_token with
    | some tok =>
      unfold peek_next_token at h
      rw [hp] at h
      simp at h
    | none =>
      unfold peek_next_token at h
      rw [hp] at h
      cases hg : get_next_token l with
      | mk r l3 =>
        rw [hg] at h
        cases r with
        | ok next => simp at h
        | error err =>
          simp only [Prod.mk.injEq] at h
          have hnone := get_next_token_cache_of_none l hp
          rw [hg] at hnone
          rw [← h.2]
          exact hnone

/-- Unfolding run_tokens one step. -/
theorem run_tokens_succ (n : Nat) (l : NTriplesLexer) :
    run_tokens (n + 1) l =
      (get_next_token l).1 :: run_tokens n (get_next_token l).2 := rfl

/-- Dispatch: a lexer with an empty cache whose input starts with a hash
sign hands the input to the comment rule. -/
theorem get_next_token_new_hash (rest : List Char) :
    get_next_token ⟨'#' :: rest, none⟩ =
      ((get_comment ('#' :: rest)).1, ⟨(get_comment ('#' :: rest)).2, none⟩) := rfl

/-- The comment rule on a body free of line endings followed by a line
ending consumes the ending and yields the body with its leading whitespace
discarded. -/
theorem comment_step (body : List Char) (s : Char) (tail : List Char)
    (hb : ∀ c ∈ body, c ≠ '\n' ∧ c ≠ '\r')
    (hbne : discard_leading_spaces body ≠ [])
    (hs : s = '\n' ∨ s = '\r') :
    get_comment ('#' :: (body ++ s :: tail)) =
      (.ok (Token.Comment (String.mk (discard_leading_spaces body))), tail) := by
  have hbne2 : body.dropWhile rsIsWhitespace ≠ [] := hbne
  have hpred : ∀ c ∈ body.dropWhile rsIsWhitespace,
      (decide (c = '\n') || decide (c = '\r')) = false := by
    intro c hc
    have h2 := hb c (mem_of_mem_dropWhile hc)
    simp [h2.1, h2.2]
  have hs2 : (decide (s = '\n') || decide (s = '\r')) = true := by
    rcases hs with h | h <;> simp [h]
  have hsplit : (body ++ s :: tail).dropWhile rsIsWhitespace =
      body.dropWhile rsIsWhitespace ++ s :: tail := by
    rw [List.dropWhile_append]
    simp [List.isEmpty_iff, hbne2]
  have hq := get_until_of_split (fun c => decide (c = '\n') || decide (c = '\x0d'))
    (body.dropWhile rsIsWhitespace) s tail hpred hs2
  simp [get_comment, get_until_discard_leading_spaces, discard_leading_spaces,
    consume_next_char, hsplit, hq]

/-- The comment rule on a body free of line endings that runs to end of
input yields the body with its leading whitespace discarded. -/
theorem comment_eof (body : List Char)
    (hb : ∀ c ∈ body, c ≠ '\n' ∧ c ≠ '\r') :
    get_comment ('#' :: body) =
      (.ok (Token.Comment (String.mk (discard_leading_spaces body))), []) := by
  have hpred : ∀ c ∈ body.dropWhile rsIsWhitespace,
      (decide (c = '\n') || decide (c = '\r')) = false := by
    intro c hc
    have h2 := hb c (mem_of_mem_dropWhile hc)
    simp [h2.1, h2.2]
  have hq := get_until_of_eof hpred
  simp [get_comment, get_until_discard_leading_spaces, discard_leading_spaces,
    consume_next_char, hq]

/-- C3 (amended): an input made only of hash comments separated by line
endings, where every comment body keeps a non-whitespace character, yields
exactly one Comment token per comment line in input order, each payload
being the text after the hash sign and before the line ending with its
leading whitespace discarded. -/
theorem comment_lines_tokenize (first : List Char) (rest : List (Char × List Char))
    (hf : ∀ c ∈ first, c ≠ '\n' ∧ c ≠ '\r')
    (hfne : discard_leading_spaces first ≠ [])
    (hr : ∀ p ∈ rest, (p.1 = '\n' ∨ p.1 = '\r') ∧
      (∀ c ∈ p.2, c ≠ '\n' ∧ c ≠ '\r') ∧ discard_leading_spaces p.2 ≠ []) :
    run_tokens (rest.length + 1) (NTriplesLexer.new (comment_block first rest)) =
      .ok (Token.Comment (String.mk (discard_leading_spaces first))) ::
        rest.map (fun p => .ok (Token.Comment (String.mk (discard_leading_spaces p.2)))) := by
  induction rest generalizing first hf hfne with
  | nil =>
    simp only [comment_block, List.length_nil, List.map_nil, NTriplesLexer.new]
    rw [run_tokens_succ, get_next_token_new_hash, comment_eof first hf]
    rfl
  | cons p rs ih =>
    obtain ⟨s, b⟩ := p
    have hp := hr (s, b) (List.mem_cons_self _ _)
    have hrs : ∀ q ∈ rs, (q.1 = '\n' ∨ q.1 = '\r') ∧
        (∀ c ∈ q.2, c ≠ '\n' ∧ c ≠ '\r') ∧ discard_leading_spaces q.2 ≠ [] :=
      fun q hq => hr q (List.mem_cons_of_mem _ hq)
    have ihb := ih b hp.2.1 hp.2.2 hrs
    simp only [NTriplesLexer.new] at ihb
    simp only [comment_block, List.length_cons, List.map_cons, NTriplesLexer.new,
      List.cons_append]
    rw [run_tokens_succ, get_next_token_new_hash,
      comment_step first s (comment_block b rs) hf hfne hp.1]
    dsimp only
    rw [ihb]

/-- Witness for comment_lines_tokenize at a concrete input. -/
theorem comment_lines_tokenize_witness :
    run_tokens 2 (NTriplesLexer.new (comment_block ['a'] [('\n', ['b'])])) =
      [.ok (Token.Comment "a"), .ok (Token.Comment "b")] :=
  comment_lines_tokenize ['a'] [('\n', ['b'])] (by decide) (by decide) (by decide)

/-- Counterexample to C3 as stated: the comment payload is not the exact
text after the hash sign — the lexer discards its leading whitespace. -/
theorem comment_payload_counterexample :
    run_tokens 2 (NTriplesLexer.new ("# a\n#b".data)) ≠
      [.ok (Token.Comment " a"), .ok (Token.Comment "b")] ∧
    run_tokens 2 (NTriplesLexer.new ("# a\n#b".data)) =
      [.ok (Token.Comment "a"), .ok (Token.Comment "b")] := by
  constructor
  · decide
  · rfl

/-- C1: the documented example input yields the four expected tokens, each
as a success, from four sequential get_next_token calls. -/
theorem example_triple_sequence :
    run_tokens 4 (NTriplesLexer.new ("_:auto <example.org/b> \"test\" .".data)) =
      [.ok (Token.BlankNode "auto"), .ok (Token.Uri "example.org/b"),
        .ok (Token.Literal "test"), .ok Token.TripleDelimiter] := by rfl

/-- C10: a plain quoted literal directly followed by a token-starting
character consumes that character: on the quoted letter a followed by a
period, the lexer yields the literal and then EndOfInput, losing the
TripleDelimiter. -/
theorem literal_swallows_delimiter :
    run_tokens 2 (NTriplesLexer.new ("\"a\".".data)) =
      [.ok (Token.Literal "a"), .ok Token.EndOfInput] := by rfl

/-- Witness for error_preserves_cache at a concrete input: an unexpected
top-level character fails both entry points without touching the cache. -/
theorem error_preserves_cache_witness :
    (⟨['a'], none⟩ : NTriplesLexer).peeked_token =
      (NTriplesLexer.new ['a']).peeked_token ∧
    (⟨['a'], none⟩ : NTriplesLexer).peeked_token =
      (NTriplesLexer.new ['a']).peeked_token :=
  ⟨(error_preserves_cache (NTriplesLexer.new ['a']) ⟨['a'], none⟩
      ⟨.InvalidReaderInput, "Invalid input: " ++ 'a'.toString⟩).1 (by rfl),
   (error_preserves_cache (NTriplesLexer.new ['a']) ⟨['a'], none⟩
      ⟨.InvalidReaderInput, "Invalid input: " ++ 'a'.toString⟩).2 (by rfl)⟩

end RsRdf
